import Mathlib

/-!
Shallow embedding of `src/minesweeper.py` (the `Sentence` and `MinesweeperAI`
classes) together with proofs and refutations of the specification's claims
about the inference engine.

Modelling conventions:
* a Python cell `(i, j)` is a pair of integers (`Cell`);
* a Python `set` of cells is a duplicate-free list kept in insertion order
  (`set.add` is append-if-absent, `s -= {x}` is `List.filter`);
* `self.knowledge` is a list of sentences, mutated in place by the engine in
  the source, here threaded as explicit state;
* `knowledge.remove(sentence)` removes the first element equal under Python's
  `Sentence.__eq__` (set-equal cells and equal counts), and the
  remove-while-iterating loop of `knowledge_check` is reproduced index by
  index exactly as a CPython `for` loop behaves.
-/

/-- A board coordinate `(row, column)`; Python tuple of ints. -/
abbrev Cell : Type := ℤ × ℤ

/-- Python `set.add`: append the element when it is not already present. -/
def addCell (l : List Cell) (c : Cell) : List Cell :=
  if c ∈ l then l else l ++ [c]

/-- `Sentence` (minesweeper.py lines 87-96): a set of board cells and a count
of how many of them are mines. -/
structure Sentence where
  cells : List Cell
  count : ℤ
deriving DecidableEq

/-- `Sentence.mark_mine` (lines 142-152): if the cell is in the sentence,
remove it and decrement the count. -/
def Sentence.mark_mine (s : Sentence) (c : Cell) : Sentence :=
  if c ∈ s.cells then
    { cells := s.cells.filter (fun x => decide (x ≠ c)), count := s.count - 1 }
  else s

/-- `Sentence.mark_safe` (lines 154-160): if the cell is in the sentence,
remove it, leaving the count unchanged. -/
def Sentence.mark_safe (s : Sentence) (c : Cell) : Sentence :=
  if c ∈ s.cells then
    { cells := s.cells.filter (fun x => decide (x ≠ c)), count := s.count }
  else s

/-- Python `==` on two cell sets: equality as sets, i.e. mutual membership. -/
def listSetEq (a b : List Cell) : Bool :=
  a.all (fun c => decide (c ∈ b)) && b.all (fun c => decide (c ∈ a))

/-- `Sentence.__eq__` (lines 98-99): set-equal cells and equal counts. -/
def sentenceEq (s t : Sentence) : Bool :=
  listSetEq s.cells t.cells && decide (s.count = t.count)

/-- `MinesweeperAI.__init__` state (lines 168-182): board dimensions plus the
four knowledge components, all starting empty. -/
structure MinesweeperAI where
  height : ℤ
  width : ℤ
  moves_made : List Cell
  mines : List Cell
  safes : List Cell
  knowledge : List Sentence
deriving DecidableEq

/-- A fresh engine (lines 168-182). -/
def MinesweeperAI.start (h w : ℤ) : MinesweeperAI :=
  ⟨h, w, [], [], [], []⟩

/-- `MinesweeperAI.mark_mine` (lines 184-191): add the cell to `self.mines`
and propagate `Sentence.mark_mine` to every sentence. -/
def MinesweeperAI.mark_mine (st : MinesweeperAI) (c : Cell) : MinesweeperAI :=
  { st with mines := addCell st.mines c,
            knowledge := st.knowledge.map (fun s => s.mark_mine c) }

/-- `MinesweeperAI.mark_safe` (lines 193-200): add the cell to `self.safes`
and propagate `Sentence.mark_safe` to every sentence. -/
def MinesweeperAI.mark_safe (st : MinesweeperAI) (c : Cell) : MinesweeperAI :=
  { st with safes := addCell st.safes c,
            knowledge := st.knowledge.map (fun s => s.mark_safe c) }

/-- `MinesweeperAI.get_neighbor_cells` (lines 202-220).  Note the source's
bounds test is literally `c[0] >= 0 and c[1] >= 0 and c[0] != 8 and
c[1] != 8` (line 216) — the constant `8` is hardcoded and `self.height`,
`self.width` are not consulted. -/
def MinesweeperAI.get_neighbor_cells (st : MinesweeperAI) (cell : Cell) : List Cell :=
  let neighbors : List Cell :=
    [(cell.1 - 1, cell.2), (cell.1 + 1, cell.2),
     (cell.1, cell.2 - 1), (cell.1, cell.2 + 1),
     (cell.1 - 1, cell.2 - 1), (cell.1 - 1, cell.2 + 1),
     (cell.1 + 1, cell.2 - 1), (cell.1 + 1, cell.2 + 1)]
  neighbors.filter (fun c =>
    decide (0 ≤ c.1) && decide (0 ≤ c.2) && decide (c.1 ≠ 8) && decide (c.2 ≠ 8) &&
    decide (c ∉ st.safes) && decide (c ∉ st.moves_made))

/-- Python `list.remove(x)`: drop the first element equal (under
`Sentence.__eq__`) to `x`. -/
def removeFirst : List Sentence → Sentence → List Sentence
  | [], _ => []
  | x :: xs, s => if sentenceEq x s then xs else x :: removeFirst xs s

/-- The first loop of `knowledge_check` (lines 226-228): iterate over the
list by index while removing empty sentences from it, exactly as a CPython
`for` loop over a mutated list behaves (a removal shifts later elements left,
so the element after a removed one is skipped).  The fuel argument is an
upper bound on the number of iterator steps; `removeEmpties` supplies the
initial length, which always suffices because the index grows by one per step
while the length never grows. -/
def removeEmptiesAux : Nat → List Sentence → Nat → List Sentence
  | 0, l, _ => l
  | fuel + 1, l, i =>
    if h : i < l.length then
      let s := l.get ⟨i, h⟩
      if s.cells = [] then removeEmptiesAux fuel (removeFirst l s) (i + 1)
      else removeEmptiesAux fuel l (i + 1)
    else l

def removeEmpties (l : List Sentence) : List Sentence :=
  removeEmptiesAux l.length l 0

/-- One sentence of the second loop of `knowledge_check` (lines 230-237):
with `count == 0` its cells go to `self.safes`, with `count == len(cells)`
they go to `self.mines`. -/
def deduceStep (acc : MinesweeperAI) (s : Sentence) : MinesweeperAI :=
  if s.count = 0 then { acc with safes := s.cells.foldl addCell acc.safes }
  else if s.count = (s.cells.length : ℤ) then
    { acc with mines := s.cells.foldl addCell acc.mines }
  else acc

/-- The second loop of `knowledge_check` (lines 230-237), over the whole
knowledge base. -/
def MinesweeperAI.deduce (st : MinesweeperAI) : MinesweeperAI :=
  st.knowledge.foldl deduceStep st

/-- `MinesweeperAI.knowledge_check` (lines 223-243): remove empty sentences,
harvest zero-count and all-mine sentences once, then propagate `mark_safe`
over `self.safes` and `mark_mine` over `self.mines`. -/
def MinesweeperAI.knowledge_check (st : MinesweeperAI) : MinesweeperAI :=
  let st1 := { st with knowledge := removeEmpties st.knowledge }
  let st2 := st1.deduce
  let st3 := st2.safes.foldl (fun a c => a.mark_safe c) st2
  st3.mines.foldl (fun a c => a.mark_mine c) st3

/-- The superset test of `add_knowledge` line 265:
`obj.cells & sentence.cells == sentence.cells`. -/
def supersetOf (obj s : Sentence) : Bool :=
  listSetEq (obj.cells.filter (fun c => decide (c ∈ s.cells))) s.cells

/-- The derived sentence of `add_knowledge` line 266:
`Sentence(obj.cells - sentence.cells, obj.count - sentence.count)`. -/
def derivedSentence (obj s : Sentence) : Sentence :=
  ⟨obj.cells.filter (fun c => decide (c ∉ s.cells)), obj.count - s.count⟩

/-- The subset-resolution step of `add_knowledge` (lines 264-269): append the
derived sentence for the first superset found (if any), then append the new
sentence itself. -/
def resolveKb (kb : List Sentence) (s : Sentence) : List Sentence :=
  (match kb.find? (fun obj => supersetOf obj s) with
   | some obj => kb ++ [derivedSentence obj s]
   | none => kb) ++ [s]

/-- Steps 1-2 of `add_knowledge` (lines 259-260): record the move and mark
the revealed cell safe. -/
def MinesweeperAI.after_reveal (st : MinesweeperAI) (cell : Cell) : MinesweeperAI :=
  MinesweeperAI.mark_safe { st with moves_made := addCell st.moves_made cell } cell

/-- The sentence built at line 262: current neighbours of the revealed cell
(computed after the cell was recorded and marked safe) with the given count. -/
def MinesweeperAI.new_sentence (st : MinesweeperAI) (cell : Cell) (count : ℤ) : Sentence :=
  ⟨(st.after_reveal cell).get_neighbor_cells cell, count⟩

/-- `MinesweeperAI.add_knowledge` (lines 245-270). -/
def MinesweeperAI.add_knowledge (st : MinesweeperAI) (cell : Cell) (count : ℤ) :
    MinesweeperAI :=
  let st2 := st.after_reveal cell
  MinesweeperAI.knowledge_check
    { st2 with knowledge := resolveKb st2.knowledge (st.new_sentence cell count) }

/-- `MinesweeperAI.make_safe_move` (lines 272-284): return the first safe
cell not yet played, without touching any state. -/
def MinesweeperAI.make_safe_move (st : MinesweeperAI) : MinesweeperAI × Option Cell :=
  (st, st.safes.find? (fun c => decide (c ∉ st.moves_made)))

/-- The iteration domain of `make_random_move` (lines 295-296): the source
loops `for i in range(8): for j in range(8)` with the constant `8` hardcoded,
regardless of the engine's `height` and `width`. -/
def range8Cells : List Cell :=
  (List.range 8).flatMap (fun i => (List.range 8).map (fun j => ((i : ℤ), (j : ℤ))))

/-- `MinesweeperAI.make_random_move` (lines 287-300): first cell of the
hardcoded 8×8 grid that is neither played nor a known mine. -/
def MinesweeperAI.make_random_move (st : MinesweeperAI) : MinesweeperAI × Option Cell :=
  (st, range8Cells.find? (fun c =>
    decide (c ∉ st.moves_made) && decide (c ∉ st.mines)))

/-- Engine states reachable from a fresh engine by the public operations. -/
inductive Reachable : MinesweeperAI → Prop
  | start (h w : ℤ) : Reachable (MinesweeperAI.start h w)
  | add (st : MinesweeperAI) (c : Cell) (n : ℤ) :
      Reachable st → Reachable (st.add_knowledge c n)
  | msafe (st : MinesweeperAI) (c : Cell) :
      Reachable st → Reachable (st.mark_safe c)
  | mmine (st : MinesweeperAI) (c : Cell) :
      Reachable st → Reachable (st.mark_mine c)
  | smove (st : MinesweeperAI) :
      Reachable st → Reachable st.make_safe_move.1
  | rmove (st : MinesweeperAI) :
      Reachable st → Reachable st.make_random_move.1

/-- A concrete run on a fresh 8×8 engine: cells `(1,1)`, `(3,0)`, `(3,1)` are
marked safe, then `(2,0)` is revealed with count 1 and `(0,0)` with count 2 —
observations consistent with a board whose only mines are `(1,0)` and
`(0,1)`. -/
def exampleRunA : MinesweeperAI :=
  (((((MinesweeperAI.start 8 8).mark_safe (1, 1)).mark_safe (3, 0)).mark_safe
      (3, 1)).add_knowledge (2, 0) 1).add_knowledge (0, 0) 2

/-- A concrete run on a fresh 8×8 engine: reveal `(0,0)` with count 2, then
`(0,2)` with count 0. -/
def exampleRunB : MinesweeperAI :=
  ((MinesweeperAI.start 8 8).add_knowledge (0, 0) 2).add_knowledge (0, 2) 0

/-- The engine state, on a fresh 8×8 engine, after marking `(0,0)`, `(0,2)`,
`(2,1)`, `(3,0)`, `(3,1)` safe and revealing `(0,1)` with count 1; its
knowledge base holds the single sentence `{(1,1),(1,0),(1,2)} = 1`. -/
def exampleRunC : MinesweeperAI :=
  ((((((MinesweeperAI.start 8 8).mark_safe (0, 0)).mark_safe
        (0, 2)).add_knowledge (0, 1) 1).mark_safe (2, 1)).mark_safe
      (3, 0)).mark_safe (3, 1)

/-! ### Lemmas about the set model -/

theorem mem_addCell {x c : Cell} {l : List Cell} : x ∈ addCell l c ↔ x ∈ l ∨ x = c := by
  unfold addCell
  by_cases h : c ∈ l
  · rw [if_pos h]
    constructor
    · exact Or.inl
    · rintro (hx | rfl)
      · exact hx
      · exact h
  · rw [if_neg h]
    simp [List.mem_append]

theorem subset_addCell {x c : Cell} {l : List Cell} (h : x ∈ l) : x ∈ addCell l c :=
  mem_addCell.mpr (Or.inl h)

theorem self_mem_addCell (c : Cell) (l : List Cell) : c ∈ addCell l c :=
  mem_addCell.mpr (Or.inr rfl)

theorem addCell_of_mem {c : Cell} {l : List Cell} (h : c ∈ l) : addCell l c = l :=
  if_pos h

theorem addCell_idem (l : List Cell) (c : Cell) : addCell (addCell l c) c = addCell l c :=
  addCell_of_mem (self_mem_addCell c l)

theorem mem_foldl_addCell {x : Cell} {L A : List Cell} (h : x ∈ A) :
    x ∈ L.foldl addCell A := by
  induction L generalizing A with
  | nil => exact h
  | cons c L ih => exact ih (subset_addCell h)

theorem foldl_addCell_of_subset {L A : List Cell} (h : ∀ c ∈ L, c ∈ A) :
    L.foldl addCell A = A := by
  induction L with
  | nil => rfl
  | cons c L ih =>
    rw [List.foldl_cons, addCell_of_mem (h c (List.mem_cons_self c L))]
    exact ih fun d hd => h d (List.mem_cons_of_mem c hd)

theorem foldl_addCell_self (A : List Cell) : A.foldl addCell A = A :=
  foldl_addCell_of_subset fun _ hc => hc

/-! ### Lemmas about sentence-level marking -/

theorem Sentence.mem_cells_mark_safe {s : Sentence} {c x : Cell} :
    x ∈ (s.mark_safe c).cells ↔ x ∈ s.cells ∧ x ≠ c := by
  unfold Sentence.mark_safe
  by_cases h : c ∈ s.cells
  · rw [if_pos h]
    simp [List.mem_filter]
  · rw [if_neg h]
    constructor
    · intro hx
      exact ⟨hx, fun e => h (e ▸ hx)⟩
    · exact fun hx => hx.1

theorem Sentence.mem_cells_mark_mine {s : Sentence} {c x : Cell} :
    x ∈ (s.mark_mine c).cells ↔ x ∈ s.cells ∧ x ≠ c := by
  unfold Sentence.mark_mine
  by_cases h : c ∈ s.cells
  · rw [if_pos h]
    simp [List.mem_filter]
  · rw [if_neg h]
    constructor
    · intro hx
      exact ⟨hx, fun e => h (e ▸ hx)⟩
    · exact fun hx => hx.1

theorem Sentence.mark_safe_not_mem {s : Sentence} {c : Cell} (h : c ∉ s.cells) :
    s.mark_safe c = s :=
  if_neg h

theorem Sentence.mark_mine_not_mem {s : Sentence} {c : Cell} (h : c ∉ s.cells) :
    s.mark_mine c = s :=
  if_neg h

theorem Sentence.mark_safe_idem (s : Sentence) (c : Cell) :
    (s.mark_safe c).mark_safe c = s.mark_safe c :=
  Sentence.mark_safe_not_mem fun h => (Sentence.mem_cells_mark_safe.mp h).2 rfl

theorem Sentence.mark_mine_idem (s : Sentence) (c : Cell) :
    (s.mark_mine c).mark_mine c = s.mark_mine c :=
  Sentence.mark_mine_not_mem fun h => (Sentence.mem_cells_mark_mine.mp h).2 rfl

theorem mem_cells_foldl_mark_safe {L : List Cell} {s : Sentence} {x : Cell}
    (h : x ∈ (L.foldl (fun t c => t.mark_safe c) s).cells) : x ∈ s.cells ∧ x ∉ L := by
  induction L generalizing s with
  | nil => exact ⟨h, List.not_mem_nil x⟩
  | cons c L ih =>
    rw [List.foldl_cons] at h
    obtain ⟨h1, h2⟩ := ih h
    obtain ⟨h3, h4⟩ := Sentence.mem_cells_mark_safe.mp h1
    refine ⟨h3, fun hm => ?_⟩
    rcases List.mem_cons.mp hm with rfl | hm
    · exact h4 rfl
    · exact h2 hm

theorem mem_cells_foldl_mark_mine {L : List Cell} {s : Sentence} {x : Cell}
    (h : x ∈ (L.foldl (fun t c => t.mark_mine c) s).cells) : x ∈ s.cells ∧ x ∉ L := by
  induction L generalizing s with
  | nil => exact ⟨h, List.not_mem_nil x⟩
  | cons c L ih =>
    rw [List.foldl_cons] at h
    obtain ⟨h1, h2⟩ := ih h
    obtain ⟨h3, h4⟩ := Sentence.mem_cells_mark_mine.mp h1
    refine ⟨h3, fun hm => ?_⟩
    rcases List.mem_cons.mp hm with rfl | hm
    · exact h4 rfl
    · exact h2 hm

/-! ### Lemmas about the engine-level marking folds (loops 3 and 4 of
`knowledge_check`) -/

theorem foldl_mark_safe_eq (L : List Cell) (st : MinesweeperAI) :
    L.foldl (fun a c => a.mark_safe c) st =
      { st with safes := L.foldl addCell st.safes,
                knowledge :=
                  st.knowledge.map (fun s => L.foldl (fun t c => t.mark_safe c) s) } := by
  induction L generalizing st with
  | nil => simp
  | cons c L ih =>
    rw [List.foldl_cons, ih]
    simp only [MinesweeperAI.mark_safe, List.map_map, List.foldl_cons]
    rfl

theorem foldl_mark_mine_eq (L : List Cell) (st : MinesweeperAI) :
    L.foldl (fun a c => a.mark_mine c) st =
      { st with mines := L.foldl addCell st.mines,
                knowledge :=
                  st.knowledge.map (fun s => L.foldl (fun t c => t.mark_mine c) s) } := by
  induction L generalizing st with
  | nil => simp
  | cons c L ih =>
    rw [List.foldl_cons, ih]
    simp only [MinesweeperAI.mark_mine, List.map_map, List.foldl_cons]
    rfl

/-! ### Lemmas about the deduction loop -/

theorem deduceStep_moves (a : MinesweeperAI) (s : Sentence) :
    (deduceStep a s).moves_made = a.moves_made := by
  unfold deduceStep
  split
  · rfl
  split
  · rfl
  · rfl

theorem deduceStep_knowledge (a : MinesweeperAI) (s : Sentence) :
    (deduceStep a s).knowledge = a.knowledge := by
  unfold deduceStep
  split
  · rfl
  split
  · rfl
  · rfl

theorem deduceStep_safes_mono {a : MinesweeperAI} {s : Sentence} {x : Cell}
    (h : x ∈ a.safes) : x ∈ (deduceStep a s).safes := by
  unfold deduceStep
  split
  · exact mem_foldl_addCell h
  split
  · exact h
  · exact h

theorem foldl_deduceStep_moves (kb : List Sentence) (a : MinesweeperAI) :
    (kb.foldl deduceStep a).moves_made = a.moves_made := by
  induction kb generalizing a with
  | nil => rfl
  | cons s kb ih => rw [List.foldl_cons, ih, deduceStep_moves]

theorem foldl_deduceStep_knowledge (kb : List Sentence) (a : MinesweeperAI) :
    (kb.foldl deduceStep a).knowledge = a.knowledge := by
  induction kb generalizing a with
  | nil => rfl
  | cons s kb ih => rw [List.foldl_cons, ih, deduceStep_knowledge]

theorem foldl_deduceStep_safes_mono {kb : List Sentence} {a : MinesweeperAI} {x : Cell}
    (h : x ∈ a.safes) : x ∈ (kb.foldl deduceStep a).safes := by
  induction kb generalizing a with
  | nil => exact h
  | cons s kb ih => exact ih (deduceStep_safes_mono h)

theorem deduce_moves (st : MinesweeperAI) : st.deduce.moves_made = st.moves_made :=
  foldl_deduceStep_moves st.knowledge st

theorem deduce_safes_mono {st : MinesweeperAI} {x : Cell} (h : x ∈ st.safes) :
    x ∈ st.deduce.safes :=
  foldl_deduceStep_safes_mono h

/-! ### Lemmas about `knowledge_check` as a whole -/

theorem knowledge_check_moves (st : MinesweeperAI) :
    st.knowledge_check.moves_made = st.moves_made := by
  show ((let st2 := ({ st with knowledge := removeEmpties st.knowledge} : MinesweeperAI).deduce
         let st3 := st2.safes.foldl (fun a c => a.mark_safe c) st2
         st3.mines.foldl (fun a c => a.mark_mine c) st3) : MinesweeperAI).moves_made = _
  rw [foldl_mark_mine_eq, foldl_mark_safe_eq]
  exact deduce_moves _

theorem knowledge_check_safes_mono {st : MinesweeperAI} {x : Cell} (h : x ∈ st.safes) :
    x ∈ st.knowledge_check.safes := by
  show x ∈ ((let st2 := ({ st with knowledge := removeEmpties st.knowledge} : MinesweeperAI).deduce
             let st3 := st2.safes.foldl (fun a c => a.mark_safe c) st2
             st3.mines.foldl (fun a c => a.mark_mine c) st3) : MinesweeperAI).safes
  rw [foldl_mark_mine_eq, foldl_mark_safe_eq]
  exact mem_foldl_addCell (deduce_safes_mono h)

/-- After the two propagation loops that end `knowledge_check`, no sentence
retains a cell of the final `safes` or `mines` sets. -/
theorem knowledge_check_cells_disjoint (st : MinesweeperAI) :
    ∀ s ∈ st.knowledge_check.knowledge, ∀ x ∈ s.cells,
      x ∉ st.knowledge_check.safes ∧ x ∉ st.knowledge_check.mines := by
  have key : ∀ st2 : MinesweeperAI,
      ∀ s ∈ ((st2.safes.foldl (fun a c => a.mark_safe c) st2).mines.foldl
               (fun a c => a.mark_mine c)
               (st2.safes.foldl (fun a c => a.mark_safe c) st2)).knowledge,
        ∀ x ∈ s.cells,
          x ∉ ((st2.safes.foldl (fun a c => a.mark_safe c) st2).mines.foldl
                 (fun a c => a.mark_mine c)
                 (st2.safes.foldl (fun a c => a.mark_safe c) st2)).safes ∧
          x ∉ ((st2.safes.foldl (fun a c => a.mark_safe c) st2).mines.foldl
                 (fun a c => a.mark_mine c)
                 (st2.safes.foldl (fun a c => a.mark_safe c) st2)).mines := by
    intro st2 s hs x hx
    simp only [foldl_mark_safe_eq, foldl_mark_mine_eq, foldl_addCell_self, List.map_map,
      List.mem_map, Function.comp] at hs hx ⊢
    obtain ⟨u, hu, rfl⟩ := hs
    obtain ⟨hx1, hxm⟩ := mem_cells_foldl_mark_mine hx
    obtain ⟨hx2, hxs⟩ := mem_cells_foldl_mark_safe hx1
    exact ⟨hxs, hxm⟩
  exact key ({ st with knowledge := removeEmpties st.knowledge} : MinesweeperAI).deduce

/-! ### Further helper lemmas -/

theorem length_filter_ne {l : List Cell} {c : Cell} (hnd : l.Nodup) (hc : c ∈ l) :
    (l.filter (fun x => decide (x ≠ c))).length + 1 = l.length := by
  induction l with
  | nil => cases hc
  | cons a l ih =>
    obtain ⟨ha, hnd'⟩ := List.nodup_cons.mp hnd
    rw [List.filter_cons]
    by_cases hac : a = c
    · rw [if_neg (by simp [hac])]
      have hcl : c ∉ l := hac ▸ ha
      have hall : ∀ x ∈ l, (fun x => decide (x ≠ c)) x = true := fun x hx =>
        decide_eq_true fun e => hcl (e ▸ hx)
      rw [List.filter_eq_self.mpr hall, List.length_cons]
    · have hcl : c ∈ l := by
        rcases List.mem_cons.mp hc with h | h
        · exact absurd h.symm hac
        · exact h
      rw [if_pos (decide_eq_true hac), List.length_cons, List.length_cons, ← ih hnd' hcl]

theorem exists_of_find?_eq_some {p : Sentence → Bool} {l : List Sentence} {a : Sentence}
    (h : l.find? p = some a) : a ∈ l ∧ p a = true :=
  ⟨List.mem_of_find?_eq_some h, List.find?_some h⟩

theorem add_knowledge_moves (st : MinesweeperAI) (c : Cell) (n : ℤ) :
    (st.add_knowledge c n).moves_made = addCell st.moves_made c := by
  show (MinesweeperAI.knowledge_check
    { st.after_reveal c with
      knowledge := resolveKb (st.after_reveal c).knowledge (st.new_sentence c n) }).moves_made = _
  rw [knowledge_check_moves]
  rfl

theorem add_knowledge_safes_mono (st : MinesweeperAI) (c : Cell) (n : ℤ) {x : Cell}
    (h : x ∈ addCell st.safes c) : x ∈ (st.add_knowledge c n).safes := by
  show x ∈ (MinesweeperAI.knowledge_check
    { st.after_reveal c with
      knowledge := resolveKb (st.after_reveal c).knowledge (st.new_sentence c n) }).safes
  exact knowledge_check_safes_mono h

/-! ### The claims -/

/-- C1 (counterexample): the deduction performed by `add_knowledge` does not
reach a fixed point.  In the run `exampleRunA` (marks `(1,1)`, `(3,0)`,
`(3,1)` safe, reveals `(2,0)` with count 1 and `(0,0)` with count 2, all
consistent with a board whose only mines are `(1,0)` and `(0,1)`), the
knowledge base returned by the final `add_knowledge` still contains the
sentence `{(2,1)} = 0` although `(2,1)` is not in `safes`. -/
theorem c1_not_fixed_point :
    (⟨[(2, 1)], 0⟩ : Sentence) ∈ exampleRunA.knowledge ∧
      (2, 1) ∉ exampleRunA.safes := by decide

/-- C1 (amended): the single closure pass of `knowledge_check` guarantees
propagation-completeness: after `add_knowledge` returns, no sentence of the
knowledge base retains any cell of the final `safes` or `mines` sets.  It
does not guarantee harvest-completeness: as the counterexample shows, a
sentence with `count = 0` and cells outside `safes` may remain, and
`{A,B} = 1` with `{A,B,C} = 1` makes `C` safe only when `{A,B}` is the
later arrival. -/
theorem c1_propagation_complete (st : MinesweeperAI) (cell : Cell) (count : ℤ) :
    ∀ s ∈ (st.add_knowledge cell count).knowledge, ∀ x ∈ s.cells,
      x ∉ (st.add_knowledge cell count).safes ∧
        x ∉ (st.add_knowledge cell count).mines :=
  knowledge_check_cells_disjoint _

/-- C1 witness: the amended theorem evaluated on a fresh 8×8 engine after
`add_knowledge (0,0) 1`. -/
theorem c1_witness :
    (0, 1) ∉ ((MinesweeperAI.start 8 8).add_knowledge (0, 0) 1).safes ∧
      (0, 1) ∉ ((MinesweeperAI.start 8 8).add_knowledge (0, 0) 1).mines :=
  c1_propagation_complete (MinesweeperAI.start 8 8) (0, 0) 1
    ⟨[(1, 0), (0, 1), (1, 1)], 1⟩ (by decide) (0, 1) (by decide)

/-- C2 (code bug): `get_neighbor_cells` filters with the hardcoded constant
`8` instead of the engine's board bounds.  On a 1×3 engine the neighbor list
of `(0,0)` contains the out-of-bounds cells `(1,0)` and `(1,1)` (row 1 is
not below `height = 1`), and revealing `(0,0)` with count 0 marks all of
them safe instead of exactly `{(0,1)}`. -/
theorem c2_neighbors_ignore_bounds :
    (MinesweeperAI.start 1 3).get_neighbor_cells (0, 0) = [(1, 0), (0, 1), (1, 1)] ∧
      ¬ ((1 : ℤ) < (MinesweeperAI.start 1 3).height) ∧
      ((MinesweeperAI.start 1 3).add_knowledge (0, 0) 0).safes =
        [(0, 0), (1, 0), (0, 1), (1, 1)] := by decide

/-- C3 (code bug): `make_random_move` iterates over `range(8) × range(8)`
with the hardcoded constant `8`.  On a 1×1 engine whose only cell `(0,0)`
has been played, it returns `(0,1)` — a cell outside
`[0,height) × [0,width)` — instead of reporting that no move is
available. -/
theorem c3_random_move_ignores_bounds :
    ((MinesweeperAI.start 1 1).add_knowledge (0, 0) 0).make_random_move.2 =
        some (0, 1) ∧
      ¬ ((1 : ℤ) < ((MinesweeperAI.start 1 1).add_knowledge (0, 0) 0).width) := by
  decide

/-- C4 (counterexample): the claimed invariant `SafeSet ∩ MineSet = ∅` fails
on reachable states: `mark_safe (0,0)` followed by `mark_mine (0,0)` on a
fresh engine puts `(0,0)` in both sets, as neither operation checks the
other set. -/
theorem c4_disjointness_fails :
    (0, 0) ∈ (((MinesweeperAI.start 8 8).mark_safe (0, 0)).mark_mine (0, 0)).safes ∧
      (0, 0) ∈ (((MinesweeperAI.start 8 8).mark_safe (0, 0)).mark_mine (0, 0)).mines := by
  decide

/-- C4 (amended): disjointness of `safes` and `mines` is preserved by
`mark_safe` only when the cell is not already a known mine, and by
`mark_mine` only when the cell is not already known safe; the operations
themselves perform no such check. -/
theorem c4_disjoint_preserved (st : MinesweeperAI) (c : Cell)
    (h : ∀ x ∈ st.safes, x ∉ st.mines) :
    (c ∉ st.mines → ∀ x ∈ (st.mark_safe c).safes, x ∉ (st.mark_safe c).mines) ∧
      (c ∉ st.safes → ∀ x ∈ (st.mark_mine c).safes, x ∉ (st.mark_mine c).mines) := by
  constructor
  · intro hc x hx
    have hx' : x ∈ addCell st.safes c := hx
    have hgoal : x ∉ st.mines := by
      rcases mem_addCell.mp hx' with h' | rfl
      · exact h x h'
      · exact hc
    exact hgoal
  · intro hc x hx hmem
    have hx' : x ∈ st.safes := hx
    have hmem' : x ∈ addCell st.mines c := hmem
    rcases mem_addCell.mp hmem' with h' | rfl
    · exact h x hx' h'
    · exact hc hx'

/-- C4 witness: the amended preservation applied on a fresh engine. -/
theorem c4_witness :
    (0, 0) ∉ ((MinesweeperAI.start 8 8).mark_safe (0, 0)).mines :=
  (c4_disjoint_preserved (MinesweeperAI.start 8 8) (0, 0) (by decide)).1
    (by decide) (0, 0) (by decide)

/-- C5 (counterexample): the bound `0 ≤ count ≤ |cells|` is violated on the
run `exampleRunB` (reveal `(0,0)` with count 2, then `(0,2)` with count 0):
marking the neighbours of `(0,2)` safe reduces the first sentence to
`{(1,0)} = 2`, whose count exceeds its single remaining cell. -/
theorem c5_count_bound_fails :
    ∃ s ∈ exampleRunB.knowledge, ¬ (s.count ≤ (s.cells.length : ℤ)) := by decide

/-- C5 (amended): a sentence with duplicate-free cells satisfying
`0 ≤ count ≤ |cells|` keeps the bound under `Sentence.mark_mine` provided
`count > 0`, and under `Sentence.mark_safe` provided `count < |cells|` or
the cell is absent; the engine does not enforce these side conditions, so
marking driven by inconsistent observations can break the bound. -/
theorem c5_count_bound_conditional (s : Sentence) (c : Cell) (hnd : s.cells.Nodup)
    (h0 : 0 ≤ s.count) (h1 : s.count ≤ (s.cells.length : ℤ)) :
    (0 < s.count →
      0 ≤ (s.mark_mine c).count ∧
        (s.mark_mine c).count ≤ ((s.mark_mine c).cells.length : ℤ)) ∧
      ((s.count < (s.cells.length : ℤ) ∨ c ∉ s.cells) →
        0 ≤ (s.mark_safe c).count ∧
          (s.mark_safe c).count ≤ ((s.mark_safe c).cells.length : ℤ)) := by
  by_cases hc : c ∈ s.cells
  · have hlen := length_filter_ne hnd hc
    have hcast : ((s.cells.filter (fun x => decide (x ≠ c))).length : ℤ) + 1 =
        (s.cells.length : ℤ) := by exact_mod_cast hlen
    constructor
    · intro hpos
      unfold Sentence.mark_mine
      rw [if_pos hc]
      show 0 ≤ s.count - 1 ∧
        s.count - 1 ≤ ((s.cells.filter (fun x => decide (x ≠ c))).length : ℤ)
      omega
    · intro hlt
      unfold Sentence.mark_safe
      rw [if_pos hc]
      show 0 ≤ s.count ∧
        s.count ≤ ((s.cells.filter (fun x => decide (x ≠ c))).length : ℤ)
      rcases hlt with hlt | habs
      · omega
      · exact absurd hc habs
  · rw [Sentence.mark_mine_not_mem hc, Sentence.mark_safe_not_mem hc]
    exact ⟨fun _ => ⟨by omega, h1⟩, fun _ => ⟨h0, h1⟩⟩

/-- C5 witness: the amended bound applied to the sentence
`{(0,0),(0,1)} = 1` and the cell `(0,0)`. -/
theorem c5_witness :
    0 ≤ (Sentence.mark_mine ⟨[(0, 0), (0, 1)], 1⟩ (0, 0)).count ∧
      (Sentence.mark_mine ⟨[(0, 0), (0, 1)], 1⟩ (0, 0)).count ≤
        ((Sentence.mark_mine ⟨[(0, 0), (0, 1)], 1⟩ (0, 0)).cells.length : ℤ) :=
  (c5_count_bound_conditional ⟨[(0, 0), (0, 1)], 1⟩ (0, 0) (by decide) (by decide)
      (by decide)).1 (by decide)

/-- C6: during `add_knowledge`, if some sentence of the existing knowledge
base passes the superset test against the newly built sentence, then the
derived difference sentence of the first such superset (cells = superset's
cells minus the new cells, count = difference of the counts) is appended to
the knowledge base by the resolution step of lines 264-269. -/
theorem c6_subset_resolution (st : MinesweeperAI) (cell : Cell) (count : ℤ)
    (h : ∃ obj ∈ (st.after_reveal cell).knowledge,
        supersetOf obj (st.new_sentence cell count) = true) :
    ∃ obj ∈ (st.after_reveal cell).knowledge,
      supersetOf obj (st.new_sentence cell count) = true ∧
        derivedSentence obj (st.new_sentence cell count) ∈
          resolveKb (st.after_reveal cell).knowledge (st.new_sentence cell count) := by
  have hsome : ((st.after_reveal cell).knowledge.find?
      (fun obj => supersetOf obj (st.new_sentence cell count))).isSome :=
    List.find?_isSome.mpr h
  obtain ⟨obj, hobj⟩ := Option.isSome_iff_exists.mp hsome
  obtain ⟨hmem, hpred⟩ := exists_of_find?_eq_some hobj
  refine ⟨obj, hmem, hpred, ?_⟩
  unfold resolveKb
  rw [hobj]
  simp [List.mem_append]

/-- C6 witness: in `exampleRunC` (knowledge `{(1,1),(1,0),(1,2)} = 1`),
revealing `(2,0)` with count 1 builds the sentence `{(1,0),(1,1)} = 1`, a
subset of the existing sentence; the derived sentence `{(1,2)} = 0` is
appended and, after the call returns, `(1,2)` is safe. -/
theorem c6_witness :
    (∃ obj ∈ (exampleRunC.after_reveal (2, 0)).knowledge,
        supersetOf obj (exampleRunC.new_sentence (2, 0) 1) = true ∧
          derivedSentence obj (exampleRunC.new_sentence (2, 0) 1) ∈
            resolveKb (exampleRunC.after_reveal (2, 0)).knowledge
              (exampleRunC.new_sentence (2, 0) 1)) ∧
      (1, 2) ∈ (exampleRunC.add_knowledge (2, 0) 1).safes :=
  ⟨c6_subset_resolution exampleRunC (2, 0) 1 (by decide), by decide⟩

/-- C7 (code bug): empty sentences survive `add_knowledge`.  On a fresh 8×8
engine, `add_knowledge (0,0) 0` returns with the knowledge base holding the
empty sentence `∅ = 0`: the pruning loop of `knowledge_check` runs before
the marking loops, so a sentence emptied by propagation is never removed. -/
theorem c7_empty_sentence_survives :
    ((MinesweeperAI.start 8 8).add_knowledge (0, 0) 0).knowledge = [⟨[], 0⟩] := by
  decide

/-- C8 (counterexample): a duplicate `add_knowledge` call is not a no-op:
repeating `add_knowledge (0,0) 1` on a fresh 8×8 engine appends a second
copy of the sentence `{(0,1),(1,0),(1,1)} = 1`, so the engine state
changes. -/
theorem c8_duplicate_add_knowledge_not_noop :
    ((MinesweeperAI.start 8 8).add_knowledge (0, 0) 1).add_knowledge (0, 0) 1 ≠
      (MinesweeperAI.start 8 8).add_knowledge (0, 0) 1 := by decide

/-- C8 (amended): the engine operations `mark_safe` and `mark_mine` are
idempotent — repeating either with the same cell leaves the whole engine
state unchanged; the claimed no-op behaviour of a duplicate `add_knowledge`
call does not hold (see the counterexample). -/
theorem c8_marks_idempotent (st : MinesweeperAI) (c : Cell) :
    (st.mark_safe c).mark_safe c = st.mark_safe c ∧
      (st.mark_mine c).mark_mine c = st.mark_mine c := by
  constructor
  · unfold MinesweeperAI.mark_safe
    simp only [List.map_map]
    congr 1
    · exact addCell_idem _ _
    · exact List.map_congr_left fun s _ => Sentence.mark_safe_idem s c
  · unfold MinesweeperAI.mark_mine
    simp only [List.map_map]
    congr 1
    · exact addCell_idem _ _
    · exact List.map_congr_left fun s _ => Sentence.mark_mine_idem s c

/-- C9: `make_safe_move` leaves the engine state untouched and returns a
cell of `safes` not yet in `moves_made` exactly when one exists (`none`
otherwise); on a fresh engine it returns no move. -/
theorem c9_make_safe_move_spec :
    (∀ st : MinesweeperAI,
        st.make_safe_move.1 = st ∧
          (∀ c : Cell, st.make_safe_move.2 = some c →
            c ∈ st.safes ∧ c ∉ st.moves_made) ∧
          (st.make_safe_move.2 = none → ∀ c ∈ st.safes, c ∈ st.moves_made)) ∧
      (MinesweeperAI.start 8 8).make_safe_move.2 = none := by
  constructor
  · intro st
    refine ⟨rfl, ?_, ?_⟩
    · intro c h
      have h' : st.safes.find? (fun x => decide (x ∉ st.moves_made)) = some c := h
      have hp := List.find?_some h'
      have hp' : decide (c ∉ st.moves_made) = true := hp
      exact ⟨List.mem_of_find?_eq_some h', of_decide_eq_true hp'⟩
    · intro h c hc
      have h' : st.safes.find? (fun c => decide (c ∉ st.moves_made)) = none := h
      have hnot := List.find?_eq_none.mp h' c hc
      by_contra hmem
      exact hnot (decide_eq_true hmem)
  · rfl

/-- C9 witness: on the engine obtained by marking `(0,0)` safe, the move
returned is `(0,0)`, which is safe and not yet played. -/
theorem c9_witness :
    (0, 0) ∈ ((MinesweeperAI.start 8 8).mark_safe (0, 0)).safes ∧
      (0, 0) ∉ ((MinesweeperAI.start 8 8).mark_safe (0, 0)).moves_made :=
  (c9_make_safe_move_spec.1 ((MinesweeperAI.start 8 8).mark_safe (0, 0))).2.1 (0, 0)
    (by decide)

/-- C10: on every state reachable from a fresh engine by the public
operations, every cell of `moves_made` is also in `safes` — `add_knowledge`
is the only operation adding to `moves_made` and it immediately marks the
same cell safe, and `safes` never shrinks. -/
theorem c10_moves_subset_safes (st : MinesweeperAI) (h : Reachable st) :
    ∀ c ∈ st.moves_made, c ∈ st.safes := by
  induction h with
  | start h w =>
    intro c hc
    cases hc
  | add st c n hst ih =>
    intro d hd
    rw [add_knowledge_moves] at hd
    rcases mem_addCell.mp hd with h' | rfl
    · exact add_knowledge_safes_mono st c n (subset_addCell (ih d h'))
    · exact add_knowledge_safes_mono st d n (self_mem_addCell d st.safes)
  | msafe st c hst ih =>
    intro d hd
    have hd' : d ∈ st.moves_made := hd
    exact subset_addCell (ih d hd')
  | mmine st c hst ih =>
    intro d hd
    have hd' : d ∈ st.moves_made := hd
    exact ih d hd'
  | smove st hst ih => exact ih
  | rmove st hst ih => exact ih

/-- C10 witness: the invariant evaluated on the reachable state obtained by
`add_knowledge (0,0) 1` from a fresh 8×8 engine. -/
theorem c10_witness :
    (0, 0) ∈ ((MinesweeperAI.start 8 8).add_knowledge (0, 0) 1).safes :=
  c10_moves_subset_safes ((MinesweeperAI.start 8 8).add_knowledge (0, 0) 1)
    (Reachable.add (MinesweeperAI.start 8 8) (0, 0) 1 (Reachable.start 8 8)) (0, 0)
    (by decide)
